import Mathlib

/-!
Verification of the `no-unused-properties` analysis core: a shallow
embedding of `src/lib/rules/no-unused-properties.js` together with the
property-reference data structure it consumes (the latter lives in
`lib/utils/property-references.js`, outside the sources provided here, so it
is modelled from the specification, §3/§4.1/§4.2).
-/

namespace NoUnusedProperties

/-- Modelled from the spec: a `PropertyReferenceSet` is a trie node keyed by
segment name carrying `hasUnknown` (wildcard) and `calls` markers, together
with a lazy `merged` union of several sets (`merge` "allows merging zero, one,
or many sets"). -/
inductive PropertyReferences where
  | node (hasUnknown : Bool) (calls : Bool)
      (children : List (String × PropertyReferences))
  | merged (refs : List PropertyReferences)

/-- The empty, "nothing observed" set. -/
def emptyRefs : PropertyReferences := PropertyReferences.node false false []

/-- Modelled from the spec: `fromUnknown()` builds a one-node set with
`hasUnknown = true`. -/
def fromUnknown : PropertyReferences := PropertyReferences.node true false []

/-- Modelled from the spec: `fromPath(path, opts)` builds a single-chain set;
the deepest node gets `calls` per `opts`. -/
def fromPath (calls : Bool) : List String → PropertyReferences
  | [] => PropertyReferences.node false calls []
  | s :: rest => PropertyReferences.node false false [(s, fromPath calls rest)]

/-- Does a children list contain a key equal to `name`? -/
def containsName (name : String) :
    List (String × PropertyReferences) → Bool
  | [] => false
  | (k, _) :: rest => k == name || containsName name rest

/-- Look up the child set stored under `name`. -/
def lookupChild (name : String) :
    List (String × PropertyReferences) → Option PropertyReferences
  | [] => none
  | (k, v) :: rest => if k == name then some v else lookupChild name rest

mutual

/-- Modelled from the spec: `hasProperty(name, { unknownCallAsAny })` is true
if `name` is a direct child or `hasUnknown` is set; with `unknownCallAsAny`,
`calls = true` at the query root also counts. A merged set matches when any
of its parts does. -/
def hasProperty (name : String) (uca : Bool) : PropertyReferences → Bool
  | PropertyReferences.node hu c ch =>
    hu || (uca && c) || containsName name ch
  | PropertyReferences.merged rs => hasPropertyList name uca rs

/-- `hasProperty` over a list of merged parts (true when any part matches). -/
def hasPropertyList (name : String) (uca : Bool) :
    List PropertyReferences → Bool
  | [] => false
  | r :: rest => hasProperty name uca r || hasPropertyList name uca rest

end

mutual

/-- Modelled from the spec: `getNest(name)` returns the child set for `name`
(or the empty set if absent); on a merged set it merges the nests of the
parts. -/
def getNest (name : String) : PropertyReferences → PropertyReferences
  | PropertyReferences.node _ _ ch =>
    match lookupChild name ch with
    | some v => v
    | none => emptyRefs
  | PropertyReferences.merged rs => PropertyReferences.merged (getNestList name rs)

/-- `getNest` applied to each merged part. -/
def getNestList (name : String) :
    List PropertyReferences → List PropertyReferences
  | [] => []
  | r :: rest => getNest name r :: getNestList name rest

end

/-- Modelled from the spec: `mergePropertyReferences(sets)` returns the union
of the given sets; merging zero sets yields the empty set (observationally,
`merged []`). -/
def mergePropertyReferences (sets : List PropertyReferences) :
    PropertyReferences :=
  PropertyReferences.merged sets

/-! Expressions and scopes

The fragment of the JavaScript AST that `findExpression` and
`verifyDataOptionDeepProperties` inspect (`src/lib/rules/no-unused-properties.js`,
lines 123–142 and 308–348). -/

mutual

/-- An expression: an identifier, an object literal, or anything else
(string/number literals, functions, calls, …). -/
inductive Expr where
  | ident (name : String)
  | objectExpression (props : List ObjProp)
  | otherExpr

/-- A member of an object literal: either a plain `Property` node with a
statically resolvable key (`utils.getStaticPropertyName`, `none` when the key
is computed/unresolvable) and a value, or some other member kind
(spread element, …). -/
inductive ObjProp where
  | nonProperty
  | property (staticName : Option String) (value : Expr)

end

/-- The `def.type` of a scope-analysis definition (`'Variable'` or other). -/
inductive DefType where
  | variableDef
  | otherDef
deriving DecidableEq

/-- The `def.parent.kind` of a variable declaration. -/
inductive DeclKind where
  | constKind
  | letKind
  | varKind
deriving DecidableEq

/-- One scope-analysis definition of a variable: its type, its declaration
kind and the declarator's initializer (`def.node.init`, absent when the
declarator has no initializer). -/
structure VarDef where
  defType : DefType
  parentKind : DeclKind
  initExpr : Option Expr

/-- A scope environment: variable name ↦ the variable's `defs` list.
A name absent from the environment models `findVariable` returning `null`. -/
def Env := List (String × List VarDef)

/-- `findExpression` (lines 123–142): resolve an identifier through local
`const` aliases — if the variable has exactly one definition, of type
`Variable`, declared `const` and with an initializer, return that
initializer, recursing while the initializer is itself an identifier.
The JavaScript recursion is unbounded, so the embedding carries fuel;
`none` models non-termination (fuel exhausted). -/
def findExpression (env : Env) : Nat → String → Option Expr
  | 0, _ => none
  | fuel + 1, idName =>
    match List.lookup idName env with
    | none => some (Expr.ident idName)
    | some defs =>
      match defs with
      | [d] =>
        if d.defType = DefType.variableDef ∧ d.parentKind = DeclKind.constKind
        then
          match d.initExpr with
          | some (Expr.ident n2) => findExpression env fuel n2
          | some e => some e
          | none => some (Expr.ident idName)
        else some (Expr.ident idName)
      | _ => some (Expr.ident idName)

/-- A reported finding: the group label and the (dot-joined) qualified name. -/
structure Finding where
  group : String
  name : String
deriving DecidableEq

/-- The `data` entry of `PROPERTY_LABEL`. -/
def dataLabel : String := "data"

/-- `[...segments, name].join('.')`. -/
def joinDot (segments : List String) : String :=
  String.intercalate "." segments

mutual

/-- `verifyDataOptionDeepProperties` (lines 308–348): resolve an identifier
value through `findExpression`; when the resulting expression is an object
literal, walk its members via `verifyProps`. Returns the reported findings;
`none` models non-termination of the unbounded JavaScript recursion
(fuel exhausted). -/
def verify (env : Env) (fuel : Nat) (segments : List String)
    (propertyValue : Expr) (propertyReferences : PropertyReferences) :
    Option (List Finding) :=
  match fuel with
  | 0 => none
  | f + 1 =>
    let target : Option Expr :=
      match propertyValue with
      | Expr.ident n => findExpression env (f + 1) n
      | e => some e
    match target with
    | none => none
    | some (Expr.objectExpression props) =>
      verifyProps env f segments props propertyReferences
    | some _ => some []
termination_by (fuel, 0)

/-- The member loop of `verifyDataOptionDeepProperties` (lines 318–346):
skip non-`Property` members and members without a static name; report
`segments.k` when `hasProperty(k, { unknownCallAsAny: true })` fails and do
not descend; otherwise recurse into the member's value with
`getNest(k)`. -/
def verifyProps (env : Env) (fuel : Nat) (segments : List String)
    (props : List ObjProp) (refs : PropertyReferences) :
    Option (List Finding) :=
  match props with
  | [] => some []
  | ObjProp.nonProperty :: rest =>
    verifyProps env fuel segments rest refs
  | ObjProp.property none _ :: rest =>
    verifyProps env fuel segments rest refs
  | ObjProp.property (some name) value :: rest =>
    if hasProperty name true refs then
      match verify env fuel (segments ++ [name]) value (getNest name refs) with
      | none => none
      | some fs =>
        match verifyProps env fuel segments rest refs with
        | none => none
        | some fs2 => some (fs ++ fs2)
    else
      match verifyProps env fuel segments rest refs with
      | none => none
      | some fs2 =>
        some (Finding.mk dataLabel (joinDot (segments ++ [name])) :: fs2)
termination_by (fuel, 1 + sizeOf props)

end

/-! Extractors over binding patterns

`definePropertyReferenceExtractor` lives in `lib/utils/property-references.js`,
outside the provided sources, so the extractors are modelled from the
specification (§4.2). -/

mutual

/-- A binding pattern: a plain identifier or an object destructuring
pattern. -/
inductive Pattern where
  | idPat (name : String)
  | objPat (entries : List PatEntry)

/-- One entry of an object destructuring pattern: a key (with an optional
nested sub-pattern) or a rest element. -/
inductive PatEntry where
  | keyEntry (name : String) (sub : Option Pattern)
  | restEntry

end

mutual

/-- Modelled from the spec: extraction from a function-parameter pattern —
a plain name yields `fromUnknown()` (the whole object may be used via the
alias); a destructuring pattern yields one set per extracted key, unioned;
a rest element yields `fromUnknown()` for the remaining names. -/
def extractFromPattern : Pattern → PropertyReferences
  | Pattern.idPat _ => fromUnknown
  | Pattern.objPat entries => PropertyReferences.merged (extractFromEntries entries)

/-- The per-entry sets of an object destructuring pattern. -/
def extractFromEntries : List PatEntry → List PropertyReferences
  | [] => []
  | PatEntry.keyEntry n sub :: rest =>
    PropertyReferences.node false false [(n, extractFromSub sub)] ::
      extractFromEntries rest
  | PatEntry.restEntry :: rest => fromUnknown :: extractFromEntries rest

/-- Below an extracted key: a nested sub-pattern recurses; a key bound to a
plain name escapes to a local alias, hence `fromUnknown()`. -/
def extractFromSub : Option Pattern → PropertyReferences
  | none => fromUnknown
  | some p => extractFromPattern p

end

/-- A function node: its parameter patterns. -/
structure FunctionNode where
  params : List Pattern

/-- Modelled from the spec: `extractFromFunctionParam(node, index)` extracts
from the pattern at the given parameter index; a missing parameter yields
the empty set. -/
def extractFromFunctionParam (node : FunctionNode) (index : Nat) :
    PropertyReferences :=
  match node.params.get? index with
  | some p => extractFromPattern p
  | none => emptyRefs

/-- Modelled from the spec: a literal path (watcher key, possibly nested)
is a direct `fromPath` construction. -/
def extractFromPath (segments : List String) : PropertyReferences :=
  fromPath false segments

/-- Modelled from the spec: a name literal (quoted-string watcher handler
value) is a single-segment literal path. -/
def extractFromNameLiteral (name : String) : PropertyReferences :=
  fromPath false [name]

/-! Declared members, containers and options
(`src/lib/rules/no-unused-properties.js`, lines 25–50 and 270–302). -/

/-- A property group (`GroupName`). -/
inductive GroupName where
  | props
  | data
  | computed
  | methods
  | setup
  | watch
  | expose
  | provide
  | inject
deriving DecidableEq

/-- `PROPERTY_LABEL` (lines 64–76). -/
def propertyLabel : GroupName → String
  | GroupName.props => "property"
  | GroupName.data => "data"
  | GroupName.computed => "computed property"
  | GroupName.methods => "method"
  | GroupName.setup => "property returned from `setup()`"
  | GroupName.watch => "watch"
  | GroupName.provide => "provide"
  | GroupName.inject => "inject"
  | GroupName.expose => "expose"

/-- The `type` of a collected component property. -/
inductive PropertyType where
  | objectType
  | arrayType
  | typeType
deriving DecidableEq

/-- A collected `ComponentPropertyData`: its name, group, type, the value
expression of its `Property` node (object type only) and whether its JSDoc
carries an `@public` marker. -/
structure ComponentProperty where
  name : String
  groupName : GroupName
  ptype : PropertyType
  propValue : Option Expr
  publicMarked : Bool

/-- `VueComponentPropertiesContainer` (lines 46–50). -/
structure VueComponentPropertiesContainer where
  properties : List ComponentProperty
  propertyReferences : List PropertyReferences
  propertyReferencesForProps : List PropertyReferences

/-- `TemplatePropertiesContainer` (lines 42–45). -/
structure TemplatePropertiesContainer where
  propertyReferences : List PropertyReferences
  refNames : List String

/-- The rule options (lines 272–275): `groups` (absent ⇒ default), `deepData`
and `ignorePublicMembers`. -/
structure RuleOptions where
  groups : Option (List GroupName)
  deepData : Bool
  ignorePublicMembers : Bool

/-- `new Set(options.groups || [GROUP_PROPERTY])` (line 273). -/
def groupsOf (options : RuleOptions) : List GroupName :=
  match options.groups with
  | none => [GroupName.props]
  | some gs => gs

/-- `isPublicMember` (lines 149–158): only object-type members outside the
`props` group can be `@public`. -/
def isPublicMember (p : ComponentProperty) : Bool :=
  p.ptype == PropertyType.objectType && !(p.groupName == GroupName.props)
    && p.publicMarked

/-! Matcher & reporter (`reportUnusedProperties`, lines 353–411). -/

/-- The body of the member loop of `reportUnusedProperties` (lines 364–409)
for one declared member: the covered checks in source order, the deep-data
check, and the final unused report. `none` models divergence of the deep
check. -/
def findingsForProperty (options : RuleOptions) (env : Env) (fuel : Nat)
    (tpl : TemplatePropertiesContainer)
    (effective effectiveInputs : PropertyReferences)
    (p : ComponentProperty) : Option (List Finding) :=
  if p.groupName == GroupName.props && hasProperty p.name false effectiveInputs
  then some []
  else if p.groupName == GroupName.setup && tpl.refNames.contains p.name then
    some []
  else if options.ignorePublicMembers && isPublicMember p then some []
  else if hasProperty p.name false effective then
    if options.deepData && p.groupName == GroupName.data
        && p.ptype == PropertyType.objectType then
      match p.propValue with
      | some v => verify env fuel [p.name] v (getNest p.name effective)
      | none => some []
    else some []
  else some [Finding.mk (propertyLabel p.groupName) p.name]

/-- The member loop of `reportUnusedProperties` over a property list,
concatenating the findings in declaration order. -/
def findingsForProperties (options : RuleOptions) (env : Env) (fuel : Nat)
    (tpl : TemplatePropertiesContainer)
    (effective effectiveInputs : PropertyReferences) :
    List ComponentProperty → Option (List Finding)
  | [] => some []
  | p :: rest =>
    match findingsForProperty options env fuel tpl effective effectiveInputs p,
      findingsForProperties options env fuel tpl effective effectiveInputs rest
    with
    | some fs, some fs2 => some (fs ++ fs2)
    | _, _ => none

/-- `reportUnusedProperties` for one component container (lines 354–410):
merge the container's reference sets with the template container's sets
(`effective`), merge the input-consumption sets (`effectiveInputs`), and run
the member loop. -/
def reportUnusedPropertiesOne (options : RuleOptions) (env : Env) (fuel : Nat)
    (tpl : TemplatePropertiesContainer)
    (c : VueComponentPropertiesContainer) : Option (List Finding) :=
  findingsForProperties options env fuel tpl
    (mergePropertyReferences (c.propertyReferences ++ tpl.propertyReferences))
    (mergePropertyReferences c.propertyReferencesForProps)
    c.properties

/-- `reportUnusedProperties` over every discovered component container. -/
def reportUnusedProperties (options : RuleOptions) (env : Env) (fuel : Nat)
    (tpl : TemplatePropertiesContainer) :
    List VueComponentPropertiesContainer → Option (List Finding)
  | [] => some []
  | c :: rest =>
    match reportUnusedPropertiesOne options env fuel tpl c,
      reportUnusedProperties options env fuel tpl rest with
    | some fs, some fs2 => some (fs ++ fs2)
    | _, _ => none

/-! Collection callbacks (lines 486–618). -/

/-- `onSetupFunctionEnter` (lines 582–587): the setup function's first
parameter is extracted and appended to the definition's
input-consumption reference list. -/
def onSetupFunctionEnter (node : FunctionNode)
    (c : VueComponentPropertiesContainer) : VueComponentPropertiesContainer :=
  { c with
    propertyReferencesForProps :=
      c.propertyReferencesForProps ++ [extractFromFunctionParam node 0] }

/-- `onRenderFunctionEnter` (lines 588–605): the first parameter is always
extracted (Vue 3 render); only when the component is functional is the
second parameter extracted and its `props` nest appended (Vue 2 functional
render). -/
def onRenderFunctionEnter (node : FunctionNode) (functional : Bool)
    (c : VueComponentPropertiesContainer) : VueComponentPropertiesContainer :=
  let c1 :=
    { c with
      propertyReferencesForProps :=
        c.propertyReferencesForProps ++ [extractFromFunctionParam node 0] }
  if functional then
    { c1 with
      propertyReferencesForProps :=
        c1.propertyReferencesForProps ++
          [getNest "props" (extractFromFunctionParam node 1)] }
  else c1

/-- A watcher entry found by `utils.iterateProperties(node, {watch})`:
its (path) name and the quoted-string handler values of its object form
(empty when the watcher is not an object-type property or has no
string-literal handlers). -/
structure WatcherEntry where
  pathSegments : List String
  handlerLiterals : List String

/-- The watcher branch of `onVueObjectEnter` (lines 494–518): the watcher
key path and every string-literal handler value are extracted and pushed
onto the **per-definition** `propertyReferences` list. -/
def processWatcher (c : VueComponentPropertiesContainer) (w : WatcherEntry) :
    VueComponentPropertiesContainer :=
  { c with
    propertyReferences :=
      c.propertyReferences ++ [extractFromPath w.pathSegments] ++
        w.handlerLiterals.map extractFromNameLiteral }

/-- The watcher processing of `onVueObjectEnter` over all watcher entries:
the template container is never touched. -/
def onVueObjectEnterWatchers (c : VueComponentPropertiesContainer)
    (tpl : TemplatePropertiesContainer) (ws : List WatcherEntry) :
    VueComponentPropertiesContainer × TemplatePropertiesContainer :=
  (ws.foldl processWatcher c, tpl)

/-- Modelled from the spec: `utils.iterateProperties(node, groups)` yields
the declared members of the component object whose group is in the given
group set (the collector normalizes each entry; the groups filter is what
line 529 depends on). -/
def iterateProperties (entries : List ComponentProperty)
    (groups : List GroupName) : List ComponentProperty :=
  entries.filter (fun p => groups.contains p.groupName)

/-! Finalization checkpoints (lines 620–657). -/

/-- A template element node (`VElement`): its child elements. -/
inductive VElement where
  | elem (children : List VElement)

/-- A parsed file: `Program.templateBody` is the single root template
element when a declarative template exists. -/
structure ProgramNode where
  templateBody : Option VElement

mutual

/-- How many times the selector `VElement[parent.type!='VElement']:exit`
(line 655) fires in a template subtree, given whether the parent of the
current element is itself a `VElement`. -/
def countSelectorMatches (parentIsVElement : Bool) : VElement → Nat
  | VElement.elem cs =>
    (if parentIsVElement then 0 else 1) + countSelectorMatchesList cs

/-- Selector matches summed over a list of child elements (whose parent is
a `VElement`). -/
def countSelectorMatchesList : List VElement → Nat
  | [] => 0
  | c :: rest => countSelectorMatches true c + countSelectorMatchesList rest

end

/-- How many times `reportUnusedProperties` runs for one file: once from
`Program:exit` when there is no template body (lines 631–633), plus once per
selector match of the template visitor when there is one (lines 655–657);
the root template element's parent is the `Program`, not a `VElement`. -/
def finalizationCount (p : ProgramNode) : Nat :=
  (match p.templateBody with
   | none => 1
   | some _ => 0) +
  (match p.templateBody with
   | none => 0
   | some t => countSelectorMatches false t)

/-- Claim C3: for all PropertyReferenceSets `a` and `b` and every name `n`,
`merge([a, b]).hasProperty(n)` equals `a.hasProperty(n) || b.hasProperty(n)`
(union law), and merge of the empty list is the identity element:
`merge([]).hasProperty(n)` is false for every `n`. -/
theorem merge_union_law (a b : PropertyReferences) (n : String) :
    (hasProperty n false (mergePropertyReferences [a, b]) =
      (hasProperty n false a || hasProperty n false b)) ∧
    hasProperty n false (mergePropertyReferences []) = false := by
  constructor
  · simp [mergePropertyReferences, hasProperty, hasPropertyList]
  · simp [mergePropertyReferences, hasProperty, hasPropertyList]

/-! Concrete instances used by the claims below. -/

/-- The empty template container. -/
def tplEmpty : TemplatePropertiesContainer := ⟨[], []⟩

/-- Options with every field defaulted (`context.options[0] || {}`). -/
def defaultOptions : RuleOptions := ⟨none, false, false⟩

/-- A setup entry point destructuring its first parameter as `{ size }`. -/
def setupFnC1 : FunctionNode :=
  ⟨[Pattern.objPat [PatEntry.keyEntry "size" none]]⟩

/-- A declared input member `size`. -/
def propSizeC1 : ComponentProperty :=
  ⟨"size", GroupName.props, PropertyType.arrayType, none, false⟩

/-- The container of a definition declaring input `size`, after
`onSetupFunctionEnter` saw `setup({ size }) {…}`. -/
def containerC1 : VueComponentPropertiesContainer :=
  onSetupFunctionEnter setupFnC1 ⟨[propSizeC1], [], []⟩

/-- Claim C1: for a declared member of group `props`, if the merged
input-consumption reference sets report `hasProperty(name) = true`, no
unused finding is emitted for that member, regardless of the general
reference sets (`effective` is arbitrary); the scenario: an input `size`
consumed only via the setup entry point's destructured first parameter
`{ size }` yields no finding. -/
theorem props_covered_by_inputs (options : RuleOptions) (env : Env)
    (fuel : Nat) (tpl : TemplatePropertiesContainer)
    (effective : PropertyReferences) (c : VueComponentPropertiesContainer)
    (p : ComponentProperty)
    (hg : p.groupName = GroupName.props)
    (hc : hasProperty p.name false
        (mergePropertyReferences c.propertyReferencesForProps) = true) :
    findingsForProperty options env fuel tpl effective
      (mergePropertyReferences c.propertyReferencesForProps) p = some [] ∧
    reportUnusedPropertiesOne defaultOptions [] 1 tplEmpty containerC1 =
      some [] := by
  constructor
  · simp [findingsForProperty, hg, hc]
  · decide

/-- Witness for C1 at the `size` scenario. -/
theorem props_covered_by_inputs_witness :
    propSizeC1.groupName = GroupName.props ∧
    hasProperty "size" false
      (mergePropertyReferences containerC1.propertyReferencesForProps) = true ∧
    findingsForProperty defaultOptions [] 5 tplEmpty emptyRefs
      (mergePropertyReferences containerC1.propertyReferencesForProps)
      propSizeC1 = some [] := by
  refine ⟨rfl, by decide, ?_⟩
  exact (props_covered_by_inputs defaultOptions [] 5 tplEmpty emptyRefs
    containerC1 propSizeC1 rfl (by decide)).1

/-- The local-state value `{ name: 'x', age: 1 }`. -/
def profileValueC2 : Expr :=
  Expr.objectExpression
    [ObjProp.property (some "name") Expr.otherExpr,
     ObjProp.property (some "age") Expr.otherExpr]

/-- The declared local-state member `profile`. -/
def propProfileC2 : ComponentProperty :=
  ⟨"profile", GroupName.data, PropertyType.objectType, some profileValueC2,
    false⟩

/-- Options tracking `data` with deep checking enabled. -/
def optionsC2 : RuleOptions := ⟨some [GroupName.data], true, false⟩

/-- The container of a definition declaring local-state `profile`, whose
only observed reference is the access chain `this.profile.name` (extracted,
per the spec's general-access extractor, as the literal path
`profile.name`). -/
def containerC2 : VueComponentPropertiesContainer :=
  ⟨[propProfileC2], [extractFromPath ["profile", "name"]], []⟩

/-- Claim C2: during deep checking of a covered local-state object literal,
a sub-entry `k` with `hasProperty(k, { unknownCallAsAny: true }) = false`
yields exactly one finding `name.k` and no descent, a matching sub-entry is
recursed into with `getNest`, and the `profile: { name, age }` scenario with
only `this.profile.name` read emits exactly the finding `profile.age`. -/
theorem deep_data_check (env : Env) (fuel : Nat) (segments : List String)
    (k : String) (v : Expr) (rest : List ObjProp)
    (refs : PropertyReferences) :
    (hasProperty k true refs = false →
      verifyProps env fuel segments (ObjProp.property (some k) v :: rest)
          refs =
        Option.map
          (fun fs =>
            Finding.mk dataLabel (joinDot (segments ++ [k])) :: fs)
          (verifyProps env fuel segments rest refs)) ∧
    (hasProperty k true refs = true →
      verifyProps env fuel segments (ObjProp.property (some k) v :: rest)
          refs =
        match verify env fuel (segments ++ [k]) v (getNest k refs),
          verifyProps env fuel segments rest refs with
        | some fs, some fs2 => some (fs ++ fs2)
        | _, _ => none) ∧
    reportUnusedPropertiesOne optionsC2 [] 5 tplEmpty containerC2 =
      some [Finding.mk dataLabel "profile.age"] := by
  refine ⟨?_, ?_, ?_⟩
  · intro h
    rw [verifyProps, h]
    cases verifyProps env fuel segments rest refs <;> simp
  · intro h
    rw [verifyProps, h]
    cases verify env fuel (segments ++ [k]) v (getNest k refs) <;>
      cases verifyProps env fuel segments rest refs <;> simp
  · simp only [reportUnusedPropertiesOne, findingsForProperties,
      findingsForProperty, optionsC2, containerC2, propProfileC2,
      profileValueC2, tplEmpty, extractFromPath, fromPath,
      mergePropertyReferences, hasProperty, hasPropertyList, containsName,
      getNest, getNestList, lookupChild, emptyRefs, verify, verifyProps,
      findExpression, joinDot, dataLabel]
    norm_num
    rfl

/-- The reference set reaching sub-entries of `profile` in the C2 scenario. -/
def refsC2w : PropertyReferences :=
  PropertyReferences.node false false [("name", emptyRefs)]

/-- Witness for C2: both deep-check branches at concrete inputs. -/
theorem deep_data_check_witness :
    (hasProperty "age" true refsC2w = false ∧
      verifyProps [] 3 ["profile"]
          [ObjProp.property (some "age") Expr.otherExpr] refsC2w =
        Option.map
          (fun fs =>
            Finding.mk dataLabel (joinDot (["profile"] ++ ["age"])) :: fs)
          (verifyProps [] 3 ["profile"] [] refsC2w)) ∧
    (hasProperty "name" true refsC2w = true ∧
      verifyProps [] 3 ["profile"]
          [ObjProp.property (some "name") Expr.otherExpr] refsC2w =
        match verify [] 3 (["profile"] ++ ["name"]) Expr.otherExpr
            (getNest "name" refsC2w),
          verifyProps [] 3 ["profile"] [] refsC2w with
        | some fs, some fs2 => some (fs ++ fs2)
        | _, _ => none) :=
  ⟨⟨by decide,
    (deep_data_check [] 3 ["profile"] "age" Expr.otherExpr [] refsC2w).1
      (by decide)⟩,
   ⟨by decide,
    (deep_data_check [] 3 ["profile"] "name" Expr.otherExpr [] refsC2w).2.1
      (by decide)⟩⟩

/-- Claim C10: during deep checking, an object-literal member that is not a
plain `Property`, or whose key has no static name, is silently skipped:
no finding, no descent, no failure — the walk behaves exactly as if the
member were absent. -/
theorem deep_check_skips_unresolvable (env : Env) (fuel : Nat)
    (segments : List String) (v : Expr) (rest : List ObjProp)
    (refs : PropertyReferences) :
    verifyProps env fuel segments (ObjProp.nonProperty :: rest) refs =
      verifyProps env fuel segments rest refs ∧
    verifyProps env fuel segments (ObjProp.property none v :: rest) refs =
      verifyProps env fuel segments rest refs := by
  constructor
  · rw [verifyProps]
  · rw [verifyProps]

mutual

/-- In a template subtree whose root's parent is a `VElement`, the selector
`VElement[parent.type!='VElement']:exit` never fires. -/
theorem countSelectorMatches_child_zero (t : VElement) :
    countSelectorMatches true t = 0 := by
  cases t with
  | elem cs =>
    rw [countSelectorMatches, countSelectorMatchesList_zero cs]
    simp

/-- Selector matches over children of a `VElement` sum to zero. -/
theorem countSelectorMatchesList_zero (cs : List VElement) :
    countSelectorMatchesList cs = 0 := by
  cases cs with
  | nil => rw [countSelectorMatchesList]
  | cons c rest =>
    rw [countSelectorMatchesList, countSelectorMatches_child_zero c,
      countSelectorMatchesList_zero rest]

end

/-- Claim C4: the finalization pass runs exactly once per file — at the
exit of the root template element when a template body exists, and at
`Program:exit` otherwise. -/
theorem finalization_runs_once (p : ProgramNode) :
    finalizationCount p = 1 := by
  cases p with
  | mk tb =>
    cases tb with
    | none => rfl
    | some t =>
      cases t with
      | elem cs =>
        simp [finalizationCount, countSelectorMatches,
          countSelectorMatchesList_zero]

/-- The object literal `{ k: … }` bound to the constant `y`. -/
def objKC5 : Expr :=
  Expr.objectExpression [ObjProp.property (some "k") Expr.otherExpr]

/-- The single `const` definition `const x = y`. -/
def defXC5 : VarDef :=
  ⟨DefType.variableDef, DeclKind.constKind, some (Expr.ident "y")⟩

/-- The single `const` definition `const y = { k: … }`. -/
def defYC5 : VarDef :=
  ⟨DefType.variableDef, DeclKind.constKind, some objKC5⟩

/-- A scope with `const x = y; const y = { k: … }`. -/
def envC5 : Env := [("x", [defXC5]), ("y", [defYC5])]

/-- Modelled from the spec: the resolution claimed by C5 — follow a bare
name bound by a local `const` declaration to its initializer, one level
only, never following a further identifier link. -/
def findExpressionOneLevel (env : Env) (idName : String) : Expr :=
  match List.lookup idName env with
  | some [d] =>
    if d.defType = DefType.variableDef ∧ d.parentKind = DeclKind.constKind
    then
      match d.initExpr with
      | some e => e
      | none => Expr.ident idName
    else Expr.ident idName
  | _ => Expr.ident idName

/-- Counterexample to C5: on `const x = y; const y = { k: … }`, the code's
`findExpression` resolves `x` all the way to the object literal, while
one-level resolution (the claim) stops at the identifier `y`. -/
theorem find_expression_one_level_refuted :
    findExpression envC5 10 "x" = some objKC5 ∧
    findExpressionOneLevel envC5 "x" = Expr.ident "y" ∧
    objKC5 ≠ Expr.ident "y" :=
  ⟨rfl, rfl, fun h => Expr.noConfusion h⟩

/-- Claim C5 as amended: when deep checking resolves a local constant
alias, `findExpression` follows identifier links transitively — each
resolution step whose single `const` definition's initializer is itself an
identifier recurses on that identifier; a non-identifier initializer
(e.g. an object literal) is returned directly. -/
theorem find_expression_follows_chains (env : Env) (fuel : Nat)
    (idName n2 : String) (d : VarDef) (ps : List ObjProp)
    (hl : List.lookup idName env = some [d])
    (ht : d.defType = DefType.variableDef)
    (hk : d.parentKind = DeclKind.constKind) :
    (d.initExpr = some (Expr.ident n2) →
      findExpression env (fuel + 1) idName = findExpression env fuel n2) ∧
    (d.initExpr = some (Expr.objectExpression ps) →
      findExpression env (fuel + 1) idName =
        some (Expr.objectExpression ps)) := by
  constructor
  · intro hi
    rw [findExpression, hl]
    simp [ht, hk, hi]
  · intro hi
    rw [findExpression, hl]
    simp [ht, hk, hi]

/-- Witness for the amended C5 at `const x = y; const y = { k: … }`. -/
theorem find_expression_follows_chains_witness :
    (List.lookup "x" envC5 = some [defXC5] ∧
      defXC5.defType = DefType.variableDef ∧
      defXC5.parentKind = DeclKind.constKind ∧
      defXC5.initExpr = some (Expr.ident "y") ∧
      findExpression envC5 2 "x" = findExpression envC5 1 "y") ∧
    (List.lookup "y" envC5 = some [defYC5] ∧
      defYC5.initExpr =
        some (Expr.objectExpression
          [ObjProp.property (some "k") Expr.otherExpr]) ∧
      findExpression envC5 1 "y" =
        some (Expr.objectExpression
          [ObjProp.property (some "k") Expr.otherExpr])) :=
  ⟨⟨rfl, rfl, rfl, rfl,
    (find_expression_follows_chains envC5 1 "x" "y" defXC5 [] rfl rfl rfl).1
      rfl⟩,
   ⟨rfl, rfl,
    (find_expression_follows_chains envC5 0 "y" "" defYC5
        [ObjProp.property (some "k") Expr.otherExpr] rfl rfl rfl).2 rfl⟩⟩

/-- A scope with the cyclic aliases `const a = b; const b = a`. -/
def envCyclic : Env :=
  [("a", [⟨DefType.variableDef, DeclKind.constKind, some (Expr.ident "b")⟩]),
   ("b", [⟨DefType.variableDef, DeclKind.constKind, some (Expr.ident "a")⟩])]

/-- Claim C8, evaluated at the failing input: on the cyclic constant
aliases `const a = b; const b = a`, `findExpression` never resolves under
any fuel bound — the unbounded JavaScript recursion diverges — and hence
the deep check on a local-state value `a` diverges too, contradicting the
claimed totality of every operation. -/
theorem find_expression_diverges_on_cycle :
    ∀ fuel : Nat,
      findExpression envCyclic fuel "a" = none ∧
      findExpression envCyclic fuel "b" = none ∧
      ∀ (segments : List String) (refs : PropertyReferences),
        verify envCyclic fuel segments (Expr.ident "a") refs = none := by
  intro fuel
  induction fuel with
  | zero =>
    refine ⟨rfl, rfl, fun segments refs => ?_⟩
    rw [verify]
  | succ n ih =>
    have ha : findExpression envCyclic (n + 1) "a" = none := by
      rw [findExpression]
      exact ih.2.1
    have hb : findExpression envCyclic (n + 1) "b" = none := by
      rw [findExpression]
      exact ih.1
    refine ⟨ha, hb, fun segments refs => ?_⟩
    rw [verify]
    simp only [ha]

/-- A watcher declared under key `foo`, with a quoted-string handler
`'onFoo'`. -/
def watcherFooC6 : WatcherEntry := ⟨["foo"], ["onFoo"]⟩

/-- Options tracking the local-state (`data`) group. -/
def optionsC6 : RuleOptions := ⟨some [GroupName.data], false, false⟩

/-- A declared local-state member `foo`. -/
def propFooC6 : ComponentProperty :=
  ⟨"foo", GroupName.data, PropertyType.arrayType, none, false⟩

/-- The container of a second definition in the same file, declaring `foo`
but lexically containing no watcher. -/
def containerB_C6 : VueComponentPropertiesContainer := ⟨[propFooC6], [], []⟩

/-- The result of `onVueObjectEnter` watcher processing on the definition
that lexically contains the watcher. -/
def processedC6 :
    VueComponentPropertiesContainer × TemplatePropertiesContainer :=
  onVueObjectEnterWatchers ⟨[], [], []⟩ tplEmpty [watcherFooC6]

/-- Counterexample to C6: after processing a literal-valued watcher target,
the per-file template container holds no reference set at all (the sets went
to the per-definition container), and a second definition of the same file
declaring `foo` still gets an unused finding for it — the watcher reference
did not count toward its coverage. -/
theorem watcher_refs_not_in_template_container :
    processedC6.2.propertyReferences = [] ∧
    processedC6.1.propertyReferences =
      [extractFromPath ["foo"], extractFromNameLiteral "onFoo"] ∧
    reportUnusedPropertiesOne optionsC6 [] 1 processedC6.2 containerB_C6 =
      some [Finding.mk dataLabel "foo"] := by
  refine ⟨rfl, rfl, ?_⟩
  decide

/-- Claim C6 as amended: reference sets extracted from literal-valued
watcher targets are accumulated in the reference container of the
definition that lexically contains the watcher (the template container is
untouched), and count toward coverage for that definition only. -/
theorem watcher_refs_accumulate_per_definition
    (c : VueComponentPropertiesContainer)
    (tpl : TemplatePropertiesContainer) (w : WatcherEntry) :
    (onVueObjectEnterWatchers c tpl [w]).2 = tpl ∧
    (onVueObjectEnterWatchers c tpl [w]).1.propertyReferences =
      c.propertyReferences ++ [extractFromPath w.pathSegments] ++
        w.handlerLiterals.map extractFromNameLiteral ∧
    reportUnusedPropertiesOne optionsC6 [] 1 tplEmpty
      (onVueObjectEnterWatchers ⟨[propFooC6], [], []⟩ tplEmpty
        [watcherFooC6]).1 = some [] := by
  refine ⟨rfl, rfl, ?_⟩
  decide

/-- A render entry point with two parameters, the second destructuring a
`props` key: `render({ x }, { props: { size } })`. -/
def renderFnC7 : FunctionNode :=
  ⟨[Pattern.objPat [PatEntry.keyEntry "x" none],
    Pattern.objPat
      [PatEntry.keyEntry "props"
        (some (Pattern.objPat [PatEntry.keyEntry "size" none]))]]⟩

/-- An empty component container. -/
def emptyContainer : VueComponentPropertiesContainer := ⟨[], [], []⟩

/-- Counterexample to C7: for a non-functional component whose render entry
point has a second parameter, only the first parameter's extraction is
appended — the reference set nested under the `props` key of the second
parameter is not in the input-consumption list, although the second
parameter is present. -/
theorem render_second_param_ignored_when_not_functional :
    (onRenderFunctionEnter renderFnC7 false
        emptyContainer).propertyReferencesForProps =
      [extractFromFunctionParam renderFnC7 0] ∧
    ¬ getNest "props" (extractFromFunctionParam renderFnC7 1) ∈
        (onRenderFunctionEnter renderFnC7 false
          emptyContainer).propertyReferencesForProps := by
  refine ⟨rfl, ?_⟩
  intro h
  have h1 : getNest "props" (extractFromFunctionParam renderFnC7 1) =
      extractFromFunctionParam renderFnC7 0 := by
    simpa [onRenderFunctionEnter, emptyContainer] using h
  have h2 := congrArg (hasProperty "size" false) h1
  rw [show hasProperty "size" false
      (getNest "props" (extractFromFunctionParam renderFnC7 1)) = true by
        decide,
    show hasProperty "size" false (extractFromFunctionParam renderFnC7 0) =
      false by decide] at h2
  exact Bool.noConfusion h2

/-- Claim C7 as amended: the reference set found nested under the `props`
key of the render entry point's second parameter is appended to the
definition's input-consumption reference list exactly when the component is
functional (the Vue 2.x functional calling convention); for a
non-functional component the second parameter is ignored. -/
theorem render_second_param_functional_only (node : FunctionNode)
    (c : VueComponentPropertiesContainer) :
    (onRenderFunctionEnter node true c).propertyReferencesForProps =
      c.propertyReferencesForProps ++
        [extractFromFunctionParam node 0,
          getNest "props" (extractFromFunctionParam node 1)] ∧
    (onRenderFunctionEnter node false c).propertyReferencesForProps =
      c.propertyReferencesForProps ++ [extractFromFunctionParam node 0] := by
  constructor
  · simp [onRenderFunctionEnter]
  · simp [onRenderFunctionEnter]

/-- For a member of the `props` group, the member loop emits either nothing
or exactly the one finding labelled with the `props` label. -/
theorem findingsForProperty_props_label (options : RuleOptions) (env : Env)
    (fuel : Nat) (tpl : TemplatePropertiesContainer)
    (effective effectiveInputs : PropertyReferences)
    (p : ComponentProperty) (h : p.groupName = GroupName.props) :
    findingsForProperty options env fuel tpl effective effectiveInputs p =
      some [] ∨
    findingsForProperty options env fuel tpl effective effectiveInputs p =
      some [Finding.mk (propertyLabel GroupName.props) p.name] := by
  rw [findingsForProperty, h]
  by_cases h1 : hasProperty p.name false effectiveInputs
  · left
    simp [h1]
  · simp only [h1]
    by_cases h2 : options.ignorePublicMembers && isPublicMember p
    · left
      simp [h2]
    · simp only [h2]
      by_cases h3 : hasProperty p.name false effective
      · left
        simp [h3]
      · right
        simp [h3]

/-- Over a property list whose members all belong to the `props` group, the
member loop only ever emits findings labelled with the `props` label. -/
theorem findingsForProperties_props_label (options : RuleOptions) (env : Env)
    (fuel : Nat) (tpl : TemplatePropertiesContainer)
    (effective effectiveInputs : PropertyReferences) :
    ∀ (l : List ComponentProperty),
      (∀ p ∈ l, p.groupName = GroupName.props) →
      ∀ fs, findingsForProperties options env fuel tpl effective
          effectiveInputs l = some fs →
      ∀ f ∈ fs, f.group = propertyLabel GroupName.props := by
  intro l
  induction l with
  | nil =>
    intro _ fs hrep
    rw [findingsForProperties] at hrep
    cases hrep
    intro f hf
    cases hf
  | cons p rest ih =>
    intro hall fs hrep f hf
    rw [findingsForProperties] at hrep
    rcases findingsForProperty_props_label options env fuel tpl effective
        effectiveInputs p (hall p (List.mem_cons_self p rest)) with h1 | h1 <;>
      rw [h1] at hrep <;>
      cases hcr : findingsForProperties options env fuel tpl effective
          effectiveInputs rest <;>
      rw [hcr] at hrep <;> cases hrep
    · exact ih (fun q hq => hall q (List.mem_cons_of_mem p hq)) _ hcr f hf
    · rcases List.mem_cons.mp hf with hfa | hfb
      · rw [hfa]
      · exact ih (fun q hq => hall q (List.mem_cons_of_mem p hq)) _ hcr f hfb

/-- Mixed declared entries: an input, a local-state member and a method. -/
def entriesC9 : List ComponentProperty :=
  [⟨"a", GroupName.props, PropertyType.arrayType, none, false⟩,
   ⟨"b", GroupName.data, PropertyType.objectType, none, false⟩,
   ⟨"m", GroupName.methods, PropertyType.objectType, none, false⟩]

/-- Claim C9: without an explicit `groups` option the tracked group set
defaults to `props` only — every member collected by
`iterateProperties(node, groups)` then belongs to the `props` group, and
every finding the finalization pass can emit for such a container carries
the `props` group label, so members of other groups are never collected and
never reported. -/
theorem default_groups_props_only (dd ip : Bool)
    (entries : List ComponentProperty) :
    (iterateProperties entries (groupsOf ⟨none, dd, ip⟩)).all
      (fun p => p.groupName == GroupName.props) = true ∧
    ∀ (env : Env) (fuel : Nat) (tpl : TemplatePropertiesContainer)
      (pRefs pRefsP : List PropertyReferences) (fs : List Finding),
      reportUnusedPropertiesOne ⟨none, dd, ip⟩ env fuel tpl
        ⟨iterateProperties entries (groupsOf ⟨none, dd, ip⟩), pRefs,
          pRefsP⟩ = some fs →
      ∀ f ∈ fs, f.group = propertyLabel GroupName.props := by
  constructor
  · simp only [iterateProperties, groupsOf, List.all_eq_true]
    intro p hp
    have := (List.mem_filter.mp hp).2
    simpa using this
  · intro env fuel tpl pRefs pRefsP fs hrep f hf
    have hall : ∀ p ∈ iterateProperties entries (groupsOf ⟨none, dd, ip⟩),
        p.groupName = GroupName.props := by
      intro p hp
      have := (List.mem_filter.mp hp).2
      simpa [groupsOf] using this
    rw [reportUnusedPropertiesOne] at hrep
    exact findingsForProperties_props_label ⟨none, dd, ip⟩ env fuel tpl
      (mergePropertyReferences (pRefs ++ tpl.propertyReferences))
      (mergePropertyReferences pRefsP)
      (iterateProperties entries (groupsOf ⟨none, dd, ip⟩)) hall fs hrep f hf

/-- Witness for C9: running the finalization pass on the mixed entries under
default options emits exactly one finding, for the input `a`, with the
`props` label. -/
theorem default_groups_props_only_witness :
    (reportUnusedPropertiesOne ⟨none, false, false⟩ [] 1 tplEmpty
        ⟨iterateProperties entriesC9 (groupsOf ⟨none, false, false⟩), [],
          []⟩ =
      some [Finding.mk "property" "a"]) ∧
    ∀ f ∈ [Finding.mk "property" "a"],
      f.group = propertyLabel GroupName.props := by
  have hcomp : reportUnusedPropertiesOne ⟨none, false, false⟩ [] 1 tplEmpty
      ⟨iterateProperties entriesC9 (groupsOf ⟨none, false, false⟩), [],
        []⟩ = some [Finding.mk "property" "a"] := by decide
  exact ⟨hcomp,
    (default_groups_props_only false false entriesC9).2 [] 1 tplEmpty [] []
      [Finding.mk "property" "a"] hcomp⟩

end NoUnusedProperties
